import Mathlib

/-!
Verification of the trendy-orchestrator core against its source.

Shallow embedding of `src/orchestrator/` (db.py, main.py, agents.py,
github_client.py, intake_server.py).  External collaborators (Postgres,
the completion service, GitHub) are modelled by explicit outcome values
supplied to the embedded functions; timestamps, token counts and prompt
text are elided where no verified property depends on them.
-/

namespace Orch

/-- Task priority, from the agent_tasks enum used in db.py. -/
inductive Priority where
  | urgent
  | high
  | medium
  | low
deriving DecidableEq, Repr

/-- Rank of a priority as computed by the CASE expression in
get_next_task (db.py lines 55-60): urgent 0, high 1, medium 2, low 3. -/
def priorityRank : Priority → Nat
  | .urgent => 0
  | .high => 1
  | .medium => 2
  | .low => 3

/-- Task status values used across db.py and main.py. -/
inductive Status where
  | queued
  | planning
  | coding
  | reviewing
  | testing
  | deploying
  | done
  | failed
deriving DecidableEq, Repr

/-- A row of the agent_tasks table, restricted to the columns the
verified claims read.  The uuid id is modelled as a Nat; timestamps as
Nat instants. -/
structure Task where
  id : Nat
  title : String
  description : String
  context : String
  trustLevel : String
  priority : Priority
  createdAt : Nat
  status : Status
deriving DecidableEq, Repr

/-- Strict dequeue precedence from the ORDER BY clause of get_next_task
(db.py lines 54-61): smaller priority rank first, then smaller
created_at. -/
def dequeueBefore (a b : Task) : Bool :=
  decide (priorityRank a.priority < priorityRank b.priority) ||
    (decide (priorityRank a.priority = priorityRank b.priority) &&
      decide (a.createdAt < b.createdAt))

/-- One accumulation step of the minimum search that models ORDER BY
followed by LIMIT 1. -/
def selMinStep (acc : Option Task) (t : Task) : Option Task :=
  match acc with
  | none => some t
  | some b => if dequeueBefore t b then some t else some b

/-- First minimal element of a list under dequeueBefore; models the
ORDER BY ... LIMIT 1 of get_next_task. -/
def selectMin (l : List Task) : Option Task :=
  l.foldl selMinStep none

/-- The store is the list of agent_tasks rows. -/
abbrev Store := List Task

/-- get_next_task (db.py lines 45-78): select the queued task that is
first under the dequeue order and, in the same transaction, set its
status to planning.  Returns the selected row as fetched (the code
returns the pre-update dict) together with the updated store.  The
started_at timestamp update is elided. -/
def get_next_task (store : Store) : Option Task × Store :=
  match selectMin (store.filter (fun t => decide (t.status = Status.queued))) with
  | none => (none, store)
  | some t =>
      (some t,
        store.map (fun u => if u.id = t.id then { u with status := Status.planning } else u))

/-- create_task (db.py lines 22-42): unconditionally INSERT a new row
and return it.  There is no validation of the title in this function.
Modelled from the spec: the agent_tasks schema is not under src/; per
spec section 4.1 a newly inserted task starts in status=queued, so the
inserted row takes the queued status default. -/
def create_task (store : Store) (title description context trustLevel : String)
    (priority : Priority) (newId now : Nat) : Task × Store :=
  let t : Task :=
    { id := newId, title := title, description := description, context := context,
      trustLevel := trustLevel, priority := priority, createdAt := now,
      status := Status.queued }
  (t, store ++ [t])

/-- An HTTP response of the intake server, restricted to status code and
the error or confirmation text. -/
structure HttpResponse where
  code : Nat
  text : String
deriving DecidableEq, Repr

/-- Body of a POST /task request (intake_server.py do_POST): fields
default to the empty string, trust_level to full_auto, priority to
medium, exactly as body.get does. -/
structure PostBody where
  title : String := ""
  description : String := ""
  context : String := ""
  trustLevel : String := "full_auto"
  priority : Priority := Priority.medium
deriving Repr

/-- Python str.strip with no argument: drop leading and trailing
whitespace. -/
def pyStrip (s : String) : String :=
  String.mk (((s.data.dropWhile Char.isWhitespace).reverse.dropWhile Char.isWhitespace).reverse)

/-- The POST /task handler (intake_server.py do_POST), after the path
and auth checks which are elided: strip the title; if it is empty
respond 400 without touching the store, otherwise insert via
create_task and respond 201. -/
def do_POST_task (store : Store) (body : PostBody) (newId now : Nat) :
    HttpResponse × Store :=
  let title := pyStrip body.title
  if title = "" then
    ({ code := 400, text := "title is required" }, store)
  else
    let (t, store2) :=
      create_task store title body.description body.context body.trustLevel
        body.priority newId now
    ({ code := 201, text := t.title }, store2)

/-- A GithubException as observed by the client code: HTTP status plus
the str(e) text. -/
structure GithubErr where
  status : Nat
  text : String
deriving DecidableEq, Repr

/-- create_branch (github_client.py lines 27-42): ask the collaborator
to create the ref; a 422 (branch already exists) error is swallowed and
any other error re-raised; on both success paths the branch name is
returned.  The collaborator outcome of create_git_ref is an explicit
argument; acquisition of the repo handle and the default-branch lookup
are elided. -/
def create_branch (branchName : String) (createRefOutcome : Except GithubErr Unit) :
    Except GithubErr String :=
  match createRefOutcome with
  | .ok _ => .ok branchName
  | .error e => if e.status = 422 then .ok branchName else .error e

/-! ### Properties of the dequeue order -/

theorem dequeueBefore_iff (a b : Task) :
    dequeueBefore a b = true ↔
      (priorityRank a.priority < priorityRank b.priority ∨
        (priorityRank a.priority = priorityRank b.priority ∧ a.createdAt < b.createdAt)) := by
  simp [dequeueBefore]

theorem dequeueBefore_irrefl (a : Task) : dequeueBefore a a = false := by
  simp [dequeueBefore]

theorem dequeueBefore_trans {a b c : Task} (hab : dequeueBefore a b = true)
    (hbc : dequeueBefore b c = true) : dequeueBefore a c = true := by
  rw [dequeueBefore_iff] at *
  omega

theorem dequeueBefore_negtrans {a b c : Task} (hab : dequeueBefore a b = false)
    (hbc : dequeueBefore b c = false) : dequeueBefore a c = false := by
  rw [← Bool.not_eq_true] at *
  rw [dequeueBefore_iff] at *
  omega

/-- The foldl minimum starting from some b lands on b or a list element. -/
theorem selMin_fold_mem (l : List Task) (b r : Task)
    (hr : l.foldl selMinStep (some b) = some r) : r = b ∨ r ∈ l := by
  induction l generalizing b with
  | nil => simp at hr; exact Or.inl hr.symm
  | cons x xs ih =>
      simp only [List.foldl_cons, selMinStep] at hr
      by_cases hx : dequeueBefore x b = true
      · simp only [hx, if_true] at hr
        rcases ih x hr with h | h
        · exact Or.inr (by simp [h])
        · exact Or.inr (List.mem_cons_of_mem _ h)
      · simp only [hx, if_false] at hr
        rcases ih b hr with h | h
        · exact Or.inl h
        · exact Or.inr (List.mem_cons_of_mem _ h)

/-- The foldl minimum starting from some b is not preceded by b nor by
any list element. -/
theorem selMin_fold_min (l : List Task) (b r : Task)
    (hr : l.foldl selMinStep (some b) = some r) :
    dequeueBefore b r = false ∧ ∀ u ∈ l, dequeueBefore u r = false := by
  induction l generalizing b with
  | nil =>
      simp at hr
      subst hr
      exact ⟨dequeueBefore_irrefl b, by simp⟩
  | cons x xs ih =>
      simp only [List.foldl_cons, selMinStep] at hr
      by_cases hx : dequeueBefore x b = true
      · simp only [hx, if_true] at hr
        obtain ⟨hxr, hall⟩ := ih x hr
        have hbr : dequeueBefore b r = false := by
          cases h : dequeueBefore b r with
          | false => rfl
          | true => exact absurd (dequeueBefore_trans hx h) (by simp [hxr])
        refine ⟨hbr, ?_⟩
        intro u hu
        rcases List.mem_cons.mp hu with rfl | hu
        · exact hxr
        · exact hall u hu
      · have hx' : dequeueBefore x b = false := by
          cases h : dequeueBefore x b with
          | false => rfl
          | true => exact absurd h hx
        simp only [hx, if_false] at hr
        obtain ⟨hbr, hall⟩ := ih b hr
        refine ⟨hbr, ?_⟩
        intro u hu
        rcases List.mem_cons.mp hu with rfl | hu
        · exact dequeueBefore_negtrans hx' hbr
        · exact hall u hu

/-- The foldl minimum starting from some never degrades to none. -/
theorem selMin_fold_isSome (l : List Task) (b : Task) :
    (l.foldl selMinStep (some b)).isSome = true := by
  induction l generalizing b with
  | nil => rfl
  | cons x xs ih =>
      simp only [List.foldl_cons, selMinStep]
      by_cases hx : dequeueBefore x b = true
      · simp only [hx, if_true]; exact ih x
      · simp only [hx, if_false]; exact ih b

theorem selectMin_mem {l : List Task} {r : Task} (hr : selectMin l = some r) : r ∈ l := by
  cases l with
  | nil => simp [selectMin] at hr
  | cons x xs =>
      simp only [selectMin, List.foldl_cons, selMinStep] at hr
      rcases selMin_fold_mem xs x r hr with rfl | h
      · exact List.mem_cons_self _ _
      · exact List.mem_cons_of_mem _ h

theorem selectMin_min {l : List Task} {r : Task} (hr : selectMin l = some r) :
    ∀ u ∈ l, dequeueBefore u r = false := by
  cases l with
  | nil => simp [selectMin] at hr
  | cons x xs =>
      simp only [selectMin, List.foldl_cons, selMinStep] at hr
      obtain ⟨hxr, hall⟩ := selMin_fold_min xs x r hr
      intro u hu
      rcases List.mem_cons.mp hu with rfl | hu
      · exact hxr
      · exact hall u hu

theorem selectMin_isSome_of_ne_nil {l : List Task} (h : l ≠ []) :
    (selectMin l).isSome = true := by
  cases l with
  | nil => exact absurd rfl h
  | cons x xs =>
      simp only [selectMin, List.foldl_cons, selMinStep]
      exact selMin_fold_isSome xs x

/-! ### Claim C4: dequeue order and atomic transition -/

/-- C4: whenever the store holds at least one queued task, get_next_task
returns a queued task that no other queued task precedes under the
order (priority rank, then creation time ascending), and the store the
caller observes in the same operation has that task transitioned to
planning, every other row unchanged. -/
theorem c4_dequeue_picks_first_and_transitions (store : Store)
    (h : ∃ t ∈ store, t.status = Status.queued) :
    ∃ t, (get_next_task store).1 = some t ∧ t ∈ store ∧ t.status = Status.queued ∧
      (∀ u ∈ store, u.status = Status.queued → dequeueBefore u t = false) ∧
      (get_next_task store).2 =
        store.map (fun u => if u.id = t.id then { u with status := Status.planning } else u) := by
  obtain ⟨t0, ht0, hq0⟩ := h
  have hmem : t0 ∈ store.filter (fun t => decide (t.status = Status.queued)) :=
    List.mem_filter.mpr ⟨ht0, by simp [hq0]⟩
  have hne : store.filter (fun t => decide (t.status = Status.queued)) ≠ [] :=
    List.ne_nil_of_mem hmem
  obtain ⟨t, hsel⟩ := Option.isSome_iff_exists.mp (selectMin_isSome_of_ne_nil hne)
  have htl := selectMin_mem hsel
  have ht : t ∈ store := (List.mem_filter.mp htl).1
  have htq : t.status = Status.queued := by
    have := (List.mem_filter.mp htl).2
    simpa using this
  refine ⟨t, ?_, ht, htq, ?_, ?_⟩
  · simp [get_next_task, hsel]
  · intro u hu huq
    exact selectMin_min hsel u (List.mem_filter.mpr ⟨hu, by simp [huq]⟩)
  · simp [get_next_task, hsel]

/-- C4 witness: a concrete store where a low-priority older task loses
to a high-priority younger task. -/
theorem c4_witness :
    (∃ t ∈ [
        { id := 1, title := "a", description := "", context := "",
          trustLevel := "full_auto", priority := Priority.low, createdAt := 0,
          status := Status.queued : Task },
        { id := 2, title := "b", description := "", context := "",
          trustLevel := "full_auto", priority := Priority.high, createdAt := 9,
          status := Status.queued : Task }], t.status = Status.queued) ∧
    (∃ t, (get_next_task [
        { id := 1, title := "a", description := "", context := "",
          trustLevel := "full_auto", priority := Priority.low, createdAt := 0,
          status := Status.queued : Task },
        { id := 2, title := "b", description := "", context := "",
          trustLevel := "full_auto", priority := Priority.high, createdAt := 9,
          status := Status.queued : Task }]).1 = some t ∧
      t ∈ [
        { id := 1, title := "a", description := "", context := "",
          trustLevel := "full_auto", priority := Priority.low, createdAt := 0,
          status := Status.queued : Task },
        { id := 2, title := "b", description := "", context := "",
          trustLevel := "full_auto", priority := Priority.high, createdAt := 9,
          status := Status.queued : Task }] ∧ t.status = Status.queued ∧
      (∀ u ∈ [
        { id := 1, title := "a", description := "", context := "",
          trustLevel := "full_auto", priority := Priority.low, createdAt := 0,
          status := Status.queued : Task },
        { id := 2, title := "b", description := "", context := "",
          trustLevel := "full_auto", priority := Priority.high, createdAt := 9,
          status := Status.queued : Task }], u.status = Status.queued → dequeueBefore u t = false) ∧
      (get_next_task [
        { id := 1, title := "a", description := "", context := "",
          trustLevel := "full_auto", priority := Priority.low, createdAt := 0,
          status := Status.queued : Task },
        { id := 2, title := "b", description := "", context := "",
          trustLevel := "full_auto", priority := Priority.high, createdAt := 9,
          status := Status.queued : Task }]).2 =
        List.map (fun u => if u.id = t.id then { u with status := Status.planning } else u) [
        { id := 1, title := "a", description := "", context := "",
          trustLevel := "full_auto", priority := Priority.low, createdAt := 0,
          status := Status.queued : Task },
        { id := 2, title := "b", description := "", context := "",
          trustLevel := "full_auto", priority := Priority.high, createdAt := 9,
          status := Status.queued : Task }]) :=
  ⟨by decide, c4_dequeue_picks_first_and_transitions _ (by decide)⟩

/-! ### Claim C7: empty-title validation at enqueue -/

/-- C7 counterexample: create_task called with an empty title does not
fail and does insert a row; the inserted row has the empty title and
status queued.  The claim that create_task rejects an empty title with
InvalidSpec is therefore false on the code. -/
theorem c7_counterexample :
    ((create_task [] "" "d" "" "full_auto" Priority.medium 1 0).2).length = 1 ∧
    (create_task [] "" "d" "" "full_auto" Priority.medium 1 0).1.title = "" ∧
    (create_task [] "" "d" "" "full_auto" Priority.medium 1 0).1.status = Status.queued := by
  decide

/-- C7 amended: create_task itself performs no validation and always
inserts a new task in status queued; the empty-title rejection lives in
the intake handler, which answers 400 title-is-required and inserts
nothing when the stripped title is empty, and otherwise inserts exactly
one new task in status queued via create_task. -/
theorem c7_amended_intake_validates (store : Store) (body : PostBody) (newId now : Nat) :
    (pyStrip body.title = "" →
      do_POST_task store body newId now = ({ code := 400, text := "title is required" }, store)) ∧
    (pyStrip body.title ≠ "" →
      ∃ t : Task, do_POST_task store body newId now = ({ code := 201, text := t.title }, store ++ [t]) ∧
        t.status = Status.queued ∧ t.title = pyStrip body.title) := by
  constructor
  · intro h
    simp [do_POST_task, h]
  · intro h
    refine ⟨{ id := newId, title := pyStrip body.title, description := body.description,
              context := body.context, trustLevel := body.trustLevel,
              priority := body.priority, createdAt := now, status := Status.queued }, ?_, rfl, rfl⟩
    simp [do_POST_task, h, create_task]

/-- C7 witness: the amended statement evaluated at a blank title and at
a real title. -/
theorem c7_witness :
    (do_POST_task [] { title := "  " } 1 0 = ({ code := 400, text := "title is required" }, []) ∧
      (∃ t : Task, do_POST_task [] { title := " fix bug " } 1 0 =
          ({ code := 201, text := t.title }, [] ++ [t]) ∧
        t.status = Status.queued ∧ t.title = pyStrip " fix bug ")) :=
  ⟨(c7_amended_intake_validates [] { title := "  " } 1 0).1 (by decide),
    (c7_amended_intake_validates [] { title := " fix bug " } 1 0).2 (by decide)⟩

/-! ### Claim C10: create_branch idempotence -/

/-- C10: create_branch succeeds and returns the branch name both when
the collaborator creates the ref and when it reports 422 branch already
exists, so a repeat call returns the same value as the first; any error
with a status other than 422 is propagated unchanged. -/
theorem c10_create_branch_idempotent (name msg : String) :
    create_branch name (Except.ok ()) = Except.ok name ∧
    create_branch name (Except.error { status := 422, text := msg }) = Except.ok name ∧
    (∀ e : GithubErr, e.status ≠ 422 → create_branch name (Except.error e) = Except.error e) := by
  refine ⟨rfl, by simp [create_branch], ?_⟩
  intro e he
  simp [create_branch, he]

/-- C10 witness: a concrete branch name, the 422 repeat call, and a 404
error propagating. -/
theorem c10_witness :
    create_branch "agent/1-x" (Except.ok ()) = Except.ok "agent/1-x" ∧
    create_branch "agent/1-x" (Except.error { status := 422, text := "exists" }) =
      Except.ok "agent/1-x" ∧
    create_branch "agent/1-x" (Except.error { status := 404, text := "missing" }) =
      Except.error { status := 404, text := "missing" } :=
  ⟨(c10_create_branch_idempotent "agent/1-x" "exists").1,
    (c10_create_branch_idempotent "agent/1-x" "exists").2.1,
    (c10_create_branch_idempotent "agent/1-x" "exists").2.2
      { status := 404, text := "missing" } (by decide)⟩

/-! ### Phase result types and safe defaults (agents.py)

Each agent call returns text that either parses into a structured
result or fails to parse.  The embedding takes the parse outcome as an
Option of the structured value (none = json.loads raised) and applies
exactly the fallback the source applies; transport failures of the
completion service are modelled separately as exceptions carrying the
str(e) text.  Raw response text, token counts and prompt construction
are elided. -/

/-- A planner result, restricted to the fields the controller reads:
summary (logged), complexity and steps (checked for the early exit). -/
structure Plan where
  summary : String
  complexity : String
  steps : List String
deriving DecidableEq, Repr

/-- run_planner fallback (agents.py lines 155-167): the parse-failure
default plan with complexity unknown and no steps. -/
def failedPlanDefault : Plan :=
  { summary := "Failed to parse plan", complexity := "unknown", steps := [] }

/-- run_planner result handling (agents.py lines 147-169): a parsed
plan is returned as is, otherwise the safe default. -/
def planFromResponse (parsed : Option Plan) : Plan :=
  parsed.getD failedPlanDefault

/-- One file change produced by the coder. -/
structure FileChange where
  path : String
  action : String
  content : String
deriving DecidableEq, Repr

/-- A coder result, restricted to the fields the controller reads. -/
structure CodeOutput where
  files : List FileChange
  commitMessage : String
  notes : String
deriving DecidableEq, Repr

/-- run_coder fallback (agents.py lines 248-253); the notes field of the
default carries the raw text, elided here. -/
def failedCodeDefault : CodeOutput :=
  { files := [], commitMessage := "failed to parse coder output", notes := "" }

/-- run_coder result handling (agents.py lines 242-255). -/
def codeFromResponse (parsed : Option CodeOutput) : CodeOutput :=
  parsed.getD failedCodeDefault

/-- A reviewer issue. -/
structure Issue where
  severity : String
  description : String
deriving DecidableEq, Repr

/-- A devils advocate review, restricted to the fields the controller
reads. -/
structure Review where
  decision : String
  confidence : ℚ
  issues : List Issue
  summary : String
deriving DecidableEq, Repr

/-- run_devils_advocate fallback (agents.py lines 351-358): approve at
low confidence rather than block. -/
def failedReviewDefault : Review :=
  { decision := "approve", confidence := 1/2, issues := [],
    summary := "Failed to parse review — approving with low confidence" }

/-- run_devils_advocate result handling (agents.py lines 345-360). -/
def reviewFromResponse (parsed : Option Review) : Review :=
  parsed.getD failedReviewDefault

/-- A tester result, restricted to the verdict. -/
structure TestResult where
  verdict : String
deriving DecidableEq, Repr

/-- run_tester fallback (agents.py line 417): verdict warning. -/
def failedTestDefault : TestResult :=
  { verdict := "warning" }

/-- run_tester result handling (agents.py lines 410-419). -/
def testFromResponse (parsed : Option TestResult) : TestResult :=
  parsed.getD failedTestDefault

/-! ### The pipeline controller (main.py process_task) -/

/-- Settings fields the controller reads (settings.py). -/
structure Config where
  maxReviewCycles : Nat
  dailyBudgetCents : Nat
  pollIntervalSeconds : Nat
deriving DecidableEq, Repr

/-- One immutable entry of the agent_task_events ledger (db.log_event),
restricted to agent name, event type and the two summaries; token and
cost columns are elided. -/
structure Event where
  agent : String
  etype : String
  inputSummary : String
  outputSummary : String
deriving DecidableEq, Repr

/-- The mutable task record as the controller updates it (db.update_task
targets), restricted to the fields process_task writes; timestamps are
elided and the append-only agent_log is represented by the prInfo field
for the delivery entry it records. -/
structure PTask where
  status : Status := Status.queued
  reviewAttempts : Nat := 0
  errorMessage : Option String := none
  branchName : Option String := none
  plan : Option Plan := none
  codeDiff : Option CodeOutput := none
  reviewNotes : Option Review := none
  testOutput : Option TestResult := none
  filesChanged : List String := []
  commitSha : Option String := none
  prUrl : Option String := none
deriving DecidableEq, Repr

/-- The created pull request as returned by the collaborator: number and
html url. -/
structure PrCreated where
  number : Nat
  url : String
deriving DecidableEq, Repr

/-- The dict returned by create_pull_request: merged is none when the
key is absent (no auto merge requested). -/
structure PrResult where
  number : Nat
  url : String
  title : String
  merged : Option Bool := none
  mergeError : Option String := none
deriving DecidableEq, Repr

/-- create_pull_request (github_client.py lines 121-153): create the PR;
if auto_merge was requested try to squash-merge, recording merged=true
on success and merged=false plus merge_error on a GithubException,
which is swallowed.  Collaborator outcomes are explicit arguments. -/
def create_pull_request (branch title body : String) (autoMerge : Bool)
    (createOutcome : Except GithubErr PrCreated)
    (mergeOutcome : Except GithubErr Unit) : Except GithubErr PrResult :=
  match createOutcome with
  | .error e => .error e
  | .ok pc =>
      let base : PrResult := { number := pc.number, url := pc.url, title := title }
      if autoMerge then
        match mergeOutcome with
        | .ok _ => .ok { base with merged := some true }
        | .error e => .ok { base with merged := some false, mergeError := some e.text }
      else .ok base

/-- The external world a single process_task run interacts with: per
phase, either an exception text (transport or collaborator failure) or
the parse outcome of the response; per review attempt for the phases
inside the loop, and per file index for the delivery operations. -/
structure World where
  plannerResp : Except String (Option Plan)
  branchOutcome : Except GithubErr Unit
  budgetOkAt : Nat → Bool
  coderRespAt : Nat → Except String (Option CodeOutput)
  reviewRespAt : Nat → Except String (Option Review)
  testerResp : Except String (Option TestResult)
  fileOpAt : Nat → Except GithubErr String
  prCreate : Except GithubErr PrCreated
  mergeOutcome : Except GithubErr Unit

/-- Controller-visible state accumulated during one process_task run:
the task record, the append-only event ledger, the number of coder
invocations made, and the pr info the controller records on delivery. -/
structure St where
  task : PTask := {}
  events : List Event := []
  coderInvocations : Nat := 0
  prInfo : Option PrResult := none
deriving DecidableEq, Repr

/-- Append one ledger event (db.log_event). -/
def logEv (st : St) (agent etype inputSummary outputSummary : String) : St :=
  { st with events := st.events ++ [Event.mk agent etype inputSummary outputSummary] }

/-- Set the terminal failed status with its error message
(db.update_task with status failed). -/
def setFailed (st : St) (msg : String) : St :=
  { st with task := { st.task with status := Status.failed, errorMessage := some msg } }

/-- Exit kinds of the coding and review loop. -/
inductive LoopExit where
  | approved (code : CodeOutput) (review : Review) (attempt : Nat)
  | exhausted
  | budgetStop
deriving DecidableEq, Repr

/-- The coding and review loop of process_task (main.py lines 110-188),
as a recursion on the number of remaining attempts: check the budget
gate, invoke the coder (counting the invocation, default on parse
failure), record and log, invoke the reviewer, record and log the
approved or rejected event, exit on approve, otherwise carry the issue
list as feedback into the next attempt.  Exceptions carry the state at
the raise point. -/
def reviewLoop (w : World) : Nat → Nat → Option (List Issue) → St →
    Except (String × St) (LoopExit × St)
  | 0, _, _, st => .ok (.exhausted, st)
  | remaining + 1, attempt, _, st =>
      if w.budgetOkAt attempt = false then
        .ok (.budgetStop, setFailed st "Daily budget exhausted")
      else
        let st := logEv st "coder" "started" ("Attempt " ++ toString attempt) ""
        let st := { st with coderInvocations := st.coderInvocations + 1 }
        match w.coderRespAt attempt with
        | .error e => .error (e, st)
        | .ok cresp =>
            let code := codeFromResponse cresp
            let st := { st with task := { st.task with codeDiff := some code } }
            let st := logEv st "coder" "completed" "" code.commitMessage
            let st := { st with task :=
              { st.task with status := Status.reviewing, reviewAttempts := attempt } }
            let st := logEv st "devils_advocate" "started"
              ("Review attempt " ++ toString attempt) ""
            match w.reviewRespAt attempt with
            | .error e => .error (e, st)
            | .ok rresp =>
                let review := reviewFromResponse rresp
                let st := { st with task := { st.task with reviewNotes := some review } }
                let st := logEv st "devils_advocate"
                  (if review.decision = "approve" then "approved" else "rejected")
                  "" review.summary
                if review.decision = "approve" then
                  .ok (.approved code review attempt, st)
                else
                  reviewLoop w remaining (attempt + 1) (some review.issues) st

/-- The delivery loop of process_task (main.py lines 219-236): one
collaborator operation per file change in listed order, accumulating
the changed paths and the last commit sha; a collaborator exception
propagates. -/
def deployFiles (w : World) : Nat → List FileChange → List String → Option String →
    Except String (List String × Option String)
  | _, [], acc, sha => .ok (acc, sha)
  | i, f :: rest, acc, _ =>
      match w.fileOpAt i with
      | .error e => .error e.text
      | .ok newSha => deployFiles w (i + 1) rest (acc ++ [f.path]) (some newSha)

/-- The tail of process_task after review approval (main.py lines
190-299): testing with its fail short-circuit, delivery of the file
changes, pull request creation with auto merge exactly when the trust
level is full_auto, and the done transition.  The pr body text and
elapsed-time bookkeeping are elided. -/
def afterApproval (w : World) (t : Task) (bname : String) (code : CodeOutput)
    (st : St) : Except (String × St) (Bool × St) :=
  let st := { st with task := { st.task with status := Status.testing } }
  let st := logEv st "tester" "started" "" ""
  match w.testerResp with
  | .error e => .error (e, st)
  | .ok tresp =>
      let tr := testFromResponse tresp
      let st := { st with task := { st.task with testOutput := some tr } }
      let st := logEv st "tester"
        (if tr.verdict ≠ "fail" then "completed" else "failed") "" tr.verdict
      if tr.verdict = "fail" then
        .ok (false, setFailed st "Tester identified likely build/test failures")
      else
        let st := { st with task := { st.task with status := Status.deploying } }
        match deployFiles w 0 code.files [] none with
        | .error e => .error (e, st)
        | .ok (files, lastSha) =>
            let st := { st with task :=
              { st.task with commitSha := lastSha, filesChanged := files } }
            let autoMerge := t.trustLevel = "full_auto"
            match create_pull_request bname ("[agent] " ++ code.commitMessage) ""
                autoMerge w.prCreate w.mergeOutcome with
            | .error e => .error (e.text, st)
            | .ok pr =>
                let st := { st with task := { st.task with prUrl := some pr.url }, prInfo := some pr }
                let st := logEv st "deployer" "completed" "" pr.url
                let st := { st with task := { st.task with status := Status.done } }
                .ok (true, st)

/-- The branch name built by process_task (main.py line 106); the uuid
hex prefix is modelled by the numeric id. -/
def branchNameFor (t : Task) : String :=
  "agent/" ++ toString t.id ++ "-" ++ (((t.title.toLower).replace " " "-").take 30)

/-- The coding and review phase of process_task (main.py lines 110-188)
together with its two failure conversions: the budget stop already
carries its failed state, and loop exhaustion becomes the failed status
with the error naming the configured cycle count; on approval control
passes to the post-approval tail. -/
def loopPhase (w : World) (cfg : Config) (t : Task) (bname : String) (st : St) :
    Except (String × St) (Bool × St) :=
  match reviewLoop w cfg.maxReviewCycles 1 none st with
  | .error es => .error es
  | .ok (.budgetStop, st2) => .ok (false, st2)
  | .ok (.exhausted, st2) =>
      .ok (false, setFailed st2
        ("Failed devil\x27s advocate review after " ++
          toString cfg.maxReviewCycles ++ " attempts"))
  | .ok (.approved code _ _, st2) => afterApproval w t bname code st2

/-- The body of process_task inside the try block (main.py lines
68-299): planning with its early exit for an unclear plan, branch
creation, the coding and review loop with its budget stop and
exhaustion failure, then the post-approval tail.  Returns the success
flag and final state, or the exception text with the state at the raise
point. -/
def process_task_body (w : World) (cfg : Config) (t : Task) :
    Except (String × St) (Bool × St) :=
  let st : St := {}
  let st := { st with task := { st.task with status := Status.planning } }
  let st := logEv st "planner" "started" t.description ""
  match w.plannerResp with
  | .error e => .error (e, st)
  | .ok presp =>
      let plan := planFromResponse presp
      let st := { st with task := { st.task with plan := some plan } }
      let st := logEv st "planner" "completed" "" plan.summary
      if plan.complexity = "unknown" ∨ plan.steps = [] then
        .ok (false, setFailed st "Planner could not produce a clear plan. Task may be too vague.")
      else
        match create_branch (branchNameFor t) w.branchOutcome with
        | .error e => .error (e.text, st)
        | .ok bname =>
            let st := { st with task :=
              { st.task with branchName := some bname, status := Status.coding } }
            loopPhase w cfg t bname st

/-- process_task (main.py lines 62-311): run the body and convert any
exception into the failed terminal state with the error text preserved,
appending the orchestrator failed event. -/
def process_task (w : World) (cfg : Config) (t : Task) : Bool × St :=
  match process_task_body w cfg t with
  | .ok r => r
  | .error (e, st) => (false, logEv (setFailed st e) "orchestrator" "failed" "" e)

/-! ### The poll loop (main.py run_once and main) -/

/-- The world one run_once cycle interacts with: the cost already spent
today as read by _check_budget, the store, and the process_task world
for the dequeued task. -/
structure RunOnceWorld where
  spentToday : Nat
  store : Store
  pt : World

/-- run_once (main.py lines 314-324): budget gate first, then dequeue,
then process; returns the process_task success flag, false when the
gate is closed or no task was available. -/
def run_once (rw : RunOnceWorld) (cfg : Config) : Bool :=
  if cfg.dailyBudgetCents ≤ rw.spentToday then false
  else
    match (get_next_task rw.store).1 with
    | none => false
    | some t => (process_task rw.pt cfg t).1

/-- One iteration of the continuous poll loop (main.py lines 362-382):
the loop sleeps the configured interval exactly when run_once did not
return true; the best-effort inbox check is elided. -/
def pollIterationSleeps (rw : RunOnceWorld) (cfg : Config) : Bool :=
  !(run_once rw cfg)

/-! ### Helper lemmas about the controller -/

/-- State carried out of a body result, on both the normal and the
exceptional path. -/
def bodySt (r : Except (String × St) (Bool × St)) : St :=
  match r with
  | .ok (_, s) => s
  | .error (_, s) => s

/-- State carried out of a loop result, on both paths. -/
def loopSt (r : Except (String × St) (LoopExit × St)) : St :=
  match r with
  | .ok (_, s) => s
  | .error (_, s) => s

theorem logEv_coderInv (st : St) (a b c d : String) :
    (logEv st a b c d).coderInvocations = st.coderInvocations := rfl

theorem setFailed_coderInv (st : St) (m : String) :
    (setFailed st m).coderInvocations = st.coderInvocations := rfl

/-- The post-approval tail never invokes the coder. -/
theorem afterApproval_coderInv (w : World) (t : Task) (bname : String)
    (code : CodeOutput) (st : St) :
    (bodySt (afterApproval w t bname code st)).coderInvocations = st.coderInvocations := by
  unfold afterApproval
  cases htr : w.testerResp with
  | error e => simp [bodySt, logEv]
  | ok tresp =>
      by_cases hv : (testFromResponse tresp).verdict = "fail"
      · simp [bodySt, logEv, setFailed, hv]
      · cases hd : deployFiles w 0 code.files [] none with
        | error e => simp [bodySt, logEv, hv, hd]
        | ok fs =>
            obtain ⟨files, sha⟩ := fs
            cases hpr : create_pull_request bname ("[agent] " ++ code.commitMessage) ""
                (t.trustLevel = "full_auto") w.prCreate w.mergeOutcome with
            | error e => simp [bodySt, logEv, hv, hd, hpr]
            | ok pr => simp [bodySt, logEv, hv, hd, hpr]

/-- Each pass of the review loop makes at most one coder invocation per
unit of fuel. -/
theorem reviewLoop_coderInv (w : World) :
    ∀ (fuel attempt : Nat) (fb : Option (List Issue)) (st : St),
      (loopSt (reviewLoop w fuel attempt fb st)).coderInvocations ≤
        st.coderInvocations + fuel := by
  intro fuel
  induction fuel with
  | zero => intro attempt fb st; simp [reviewLoop, loopSt]
  | succ r ih =>
      intro attempt fb st
      unfold reviewLoop
      by_cases hb : w.budgetOkAt attempt = false
      · simp [hb, loopSt, setFailed]
      · simp only [hb, if_false]
        cases hc : w.coderRespAt attempt with
        | error e => simp [loopSt, logEv]
        | ok cresp =>
            simp only
            cases hr : w.reviewRespAt attempt with
            | error e => simp [loopSt, logEv]
            | ok rresp =>
                simp only
                by_cases hdec : (reviewFromResponse rresp).decision = "approve"
                · simp [hdec, loopSt, logEv]
                · simp only [hdec, if_false]
                  calc (loopSt (reviewLoop w r (attempt + 1)
                        (some (reviewFromResponse rresp).issues) _)).coderInvocations
                      ≤ _ + r := ih (attempt + 1) _ _
                    _ ≤ st.coderInvocations + (r + 1) := by simp [logEv]; omega

/-- If every attempt in the window is rejected (budget open, both agent
calls return, decision not approve), the loop runs out of fuel and
reports exhaustion. -/
theorem reviewLoop_exhausts (w : World) :
    ∀ (fuel attempt : Nat) (fb : Option (List Issue)) (st : St),
      (∀ a, attempt ≤ a → a < attempt + fuel →
        w.budgetOkAt a = true ∧
        (∃ c, w.coderRespAt a = Except.ok c) ∧
        (∃ r, w.reviewRespAt a = Except.ok r ∧
          (reviewFromResponse r).decision ≠ "approve")) →
      ∃ st2, reviewLoop w fuel attempt fb st = Except.ok (LoopExit.exhausted, st2) := by
  intro fuel
  induction fuel with
  | zero => intro attempt fb st _; exact ⟨st, rfl⟩
  | succ r ih =>
      intro attempt fb st h
      obtain ⟨hb, ⟨c, hc⟩, ⟨rv, hrv, hdec⟩⟩ := h attempt (le_refl _) (by omega)
      unfold reviewLoop
      rw [hb]
      simp only [Bool.true_eq_false, if_false, hc, hrv, hdec, if_false]
      exact ih (attempt + 1) (some (reviewFromResponse rv).issues) _
        (fun a h1 h2 => h a (by omega) (by omega))

/-- The final state of process_task makes exactly the coder invocations
the body made. -/
theorem process_task_coderInv (w : World) (cfg : Config) (t : Task) :
    (process_task w cfg t).2.coderInvocations =
      (bodySt (process_task_body w cfg t)).coderInvocations := by
  unfold process_task
  cases h : process_task_body w cfg t with
  | ok r => simp [bodySt]
  | error es => obtain ⟨e, st⟩ := es; simp [bodySt, logEv, setFailed]


/-- The loop phase makes at most maxReviewCycles additional coder
invocations. -/
theorem loopPhase_coderInv (w : World) (cfg : Config) (t : Task) (bname : String) (st : St) :
    (bodySt (loopPhase w cfg t bname st)).coderInvocations ≤
      st.coderInvocations + cfg.maxReviewCycles := by
  have hle := reviewLoop_coderInv w cfg.maxReviewCycles 1 none st
  unfold loopPhase
  cases hL : reviewLoop w cfg.maxReviewCycles 1 none st with
  | error es =>
      rw [hL] at hle
      simpa [bodySt, loopSt] using hle
  | ok pr =>
      obtain ⟨ex, st2⟩ := pr
      rw [hL] at hle
      simp only [loopSt] at hle
      cases ex with
      | budgetStop => simpa [bodySt] using hle
      | exhausted => simpa [bodySt, setFailed] using hle
      | approved code rv a =>
          rw [afterApproval_coderInv]
          exact hle

/-- The body makes at most maxReviewCycles coder invocations. -/
theorem process_task_body_coderInv (w : World) (cfg : Config) (t : Task) :
    (bodySt (process_task_body w cfg t)).coderInvocations ≤ cfg.maxReviewCycles := by
  unfold process_task_body
  cases hp : w.plannerResp with
  | error e => simp [bodySt, logEv]
  | ok presp =>
      by_cases hcx : (planFromResponse presp).complexity = "unknown" ∨
          (planFromResponse presp).steps = []
      · simp [bodySt, logEv, setFailed, hcx]
      · simp only [hcx, if_false]
        cases hbr : create_branch (branchNameFor t) w.branchOutcome with
        | error e => simp [bodySt, logEv]
        | ok bname =>
            simp only
            refine le_trans (loopPhase_coderInv w cfg t bname _) ?_
            simp [logEv]

/-- If every attempt in the window is rejected, the loop phase ends in
the failed state naming the configured cycle count. -/
theorem loopPhase_exhausted (w : World) (cfg : Config) (t : Task) (bname : String) (st : St)
    (h : ∀ a, 1 ≤ a → a < 1 + cfg.maxReviewCycles →
      w.budgetOkAt a = true ∧
      (∃ c, w.coderRespAt a = Except.ok c) ∧
      (∃ r, w.reviewRespAt a = Except.ok r ∧
        (reviewFromResponse r).decision ≠ "approve")) :
    ∃ st2, loopPhase w cfg t bname st =
      Except.ok (false, setFailed st2
        ("Failed devil\x27s advocate review after " ++
          toString cfg.maxReviewCycles ++ " attempts")) := by
  obtain ⟨st2, hL⟩ := reviewLoop_exhausts w cfg.maxReviewCycles 1 none st h
  exact ⟨st2, by unfold loopPhase; rw [hL]⟩

/-- Under a viable plan, a clean branch and rejection on every allowed
attempt, the body ends with the exhaustion failure. -/
theorem process_task_body_exhausted (w : World) (cfg : Config) (t : Task) (p : Plan)
    (hp : w.plannerResp = Except.ok (some p))
    (hcx : ¬(p.complexity = "unknown" ∨ p.steps = []))
    (u : Unit) (hu : w.branchOutcome = Except.ok u)
    (hall : ∀ a, 1 ≤ a → a < 1 + cfg.maxReviewCycles →
      w.budgetOkAt a = true ∧
      (∃ c, w.coderRespAt a = Except.ok c) ∧
      (∃ r, w.reviewRespAt a = Except.ok r ∧
        (reviewFromResponse r).decision ≠ "approve")) :
    ∃ st2, process_task_body w cfg t =
      Except.ok (false, setFailed st2
        ("Failed devil\x27s advocate review after " ++
          toString cfg.maxReviewCycles ++ " attempts")) := by
  unfold process_task_body
  rw [hp, hu]
  simp only [planFromResponse, Option.getD_some, create_branch]
  rw [if_neg hcx]
  exact loopPhase_exhausted w cfg t _ _ hall

/-- C2: the controller invokes the coder at most maxReviewCycles times
for one task, and when the reviewer rejects on every allowed attempt
the task ends failed with the error naming the exhausted cycle count. -/
theorem c2_review_loop_bounded (w : World) (cfg : Config) (t : Task) :
    (process_task w cfg t).2.coderInvocations ≤ cfg.maxReviewCycles ∧
    (∀ p : Plan, w.plannerResp = Except.ok (some p) →
      ¬(p.complexity = "unknown" ∨ p.steps = []) →
      w.branchOutcome = Except.ok () →
      (∀ a, 1 ≤ a → a < 1 + cfg.maxReviewCycles →
        w.budgetOkAt a = true ∧
        (∃ c, w.coderRespAt a = Except.ok c) ∧
        (∃ r, w.reviewRespAt a = Except.ok r ∧
          (reviewFromResponse r).decision ≠ "approve")) →
      (process_task w cfg t).2.task.status = Status.failed ∧
      (process_task w cfg t).2.task.errorMessage =
        some ("Failed devil\x27s advocate review after " ++
          toString cfg.maxReviewCycles ++ " attempts")) := by
  constructor
  · rw [process_task_coderInv]
    exact process_task_body_coderInv w cfg t
  · intro p hp hcx hu hall
    obtain ⟨st2, hB⟩ := process_task_body_exhausted w cfg t p hp hcx () hu hall
    unfold process_task
    rw [hB]
    simp [setFailed]

/-- A demonstration task used by the witnesses. -/
def demoTask : Task :=
  { id := 7, title := "add x", description := "desc", context := "",
    trustLevel := "full_auto", priority := Priority.medium, createdAt := 3,
    status := Status.queued }

/-- A demonstration configuration used by the witnesses. -/
def demoCfg : Config :=
  { maxReviewCycles := 2, dailyBudgetCents := 1500, pollIntervalSeconds := 30 }

/-- A viable demonstration plan. -/
def goodPlan : Plan :=
  { summary := "s", complexity := "simple", steps := ["one"] }

/-- A rejecting demonstration review. -/
def rejectReview : Review :=
  { decision := "reject", confidence := 9/10, issues := [], summary := "bad" }

/-- An approving demonstration review. -/
def approveReview : Review :=
  { decision := "approve", confidence := 9/10, issues := [], summary := "ok" }

/-- A demonstration coder output with no file changes. -/
def demoCode : CodeOutput :=
  { files := [], commitMessage := "feat: x", notes := "" }

/-- A world in which every collaborator call succeeds and the reviewer
rejects every attempt. -/
def wAllReject : World :=
  { plannerResp := Except.ok (some goodPlan), branchOutcome := Except.ok (),
    budgetOkAt := fun _ => true,
    coderRespAt := fun _ => Except.ok (some demoCode),
    reviewRespAt := fun _ => Except.ok (some rejectReview),
    testerResp := Except.ok (some { verdict := "pass" }),
    fileOpAt := fun _ => Except.ok "sha1",
    prCreate := Except.ok { number := 1, url := "http" },
    mergeOutcome := Except.ok () }

/-- C2 witness: two allowed cycles, both rejected. -/
theorem c2_witness :
    (process_task wAllReject demoCfg demoTask).2.coderInvocations ≤ demoCfg.maxReviewCycles ∧
    ((process_task wAllReject demoCfg demoTask).2.task.status = Status.failed ∧
      (process_task wAllReject demoCfg demoTask).2.task.errorMessage =
        some ("Failed devil\x27s advocate review after " ++
          toString demoCfg.maxReviewCycles ++ " attempts")) :=
  ⟨(c2_review_loop_bounded wAllReject demoCfg demoTask).1,
    (c2_review_loop_bounded wAllReject demoCfg demoTask).2 goodPlan rfl (by decide) rfl
      (fun a _ _ =>
        ⟨rfl, ⟨some demoCode, rfl⟩, ⟨some rejectReview, rfl, by decide⟩⟩)⟩

/-- C5: when the planning phase yields no actionable steps or unknown
complexity, the controller fails the task right after planning with the
descriptive error and the coder is never invoked. -/
theorem c5_unclear_plan_early_exit (w : World) (cfg : Config) (t : Task)
    (presp : Option Plan) (hp : w.plannerResp = Except.ok presp)
    (h : (planFromResponse presp).complexity = "unknown" ∨
      (planFromResponse presp).steps = []) :
    (process_task w cfg t).1 = false ∧
    (process_task w cfg t).2.task.status = Status.failed ∧
    (process_task w cfg t).2.task.errorMessage =
      some "Planner could not produce a clear plan. Task may be too vague." ∧
    (process_task w cfg t).2.coderInvocations = 0 := by
  unfold process_task process_task_body
  rw [hp]
  simp only [if_pos h]
  simp [setFailed, logEv]

/-- C5 witness: a parse-failed planner response has unknown complexity
and no steps, so the early exit fires. -/
theorem c5_witness :
    (process_task { wAllReject with plannerResp := Except.ok none } demoCfg demoTask).1 = false ∧
    (process_task { wAllReject with plannerResp := Except.ok none } demoCfg
        demoTask).2.task.status = Status.failed ∧
    (process_task { wAllReject with plannerResp := Except.ok none } demoCfg
        demoTask).2.task.errorMessage =
      some "Planner could not produce a clear plan. Task may be too vague." ∧
    (process_task { wAllReject with plannerResp := Except.ok none } demoCfg
        demoTask).2.coderInvocations = 0 :=
  c5_unclear_plan_early_exit _ demoCfg demoTask none rfl (by decide)

/-- C6: any exception raised during processing is caught at the top
level and converted into the failed terminal status with the exception
text preserved in error_message. -/
theorem c6_exception_caught (w : World) (cfg : Config) (t : Task) (e : String) (st0 : St)
    (h : process_task_body w cfg t = Except.error (e, st0)) :
    process_task w cfg t = (false, logEv (setFailed st0 e) "orchestrator" "failed" "" e) ∧
    (process_task w cfg t).2.task.status = Status.failed ∧
    (process_task w cfg t).2.task.errorMessage = some e := by
  unfold process_task
  rw [h]
  exact ⟨rfl, by simp [logEv, setFailed], by simp [logEv, setFailed]⟩

/-- C6 witness: a transport failure of the completion service during
planning. -/
theorem c6_witness :
    process_task { wAllReject with plannerResp := Except.error "boom" } demoCfg demoTask =
      (false, logEv (setFailed
        { task := { status := Status.planning },
          events := [Event.mk "planner" "started" "desc" ""] } "boom")
        "orchestrator" "failed" "" "boom") ∧
    (process_task { wAllReject with plannerResp := Except.error "boom" } demoCfg
        demoTask).2.task.status = Status.failed ∧
    (process_task { wAllReject with plannerResp := Except.error "boom" } demoCfg
        demoTask).2.task.errorMessage = some "boom" :=
  c6_exception_caught _ demoCfg demoTask "boom" _ rfl

/-- The post-approval tail never rewrites the review notes and only
appends to the event ledger. -/
theorem afterApproval_preserves (w : World) (t : Task) (bname : String)
    (code : CodeOutput) (st : St) :
    (bodySt (afterApproval w t bname code st)).task.reviewNotes = st.task.reviewNotes ∧
    (∀ ev, ev ∈ st.events → ev ∈ (bodySt (afterApproval w t bname code st)).events) := by
  unfold afterApproval
  cases htr : w.testerResp with
  | error e => constructor <;> simp [bodySt, logEv] <;> tauto
  | ok tresp =>
      by_cases hv : (testFromResponse tresp).verdict = "fail"
      · constructor <;> simp [bodySt, logEv, setFailed, hv] <;> tauto
      · cases hd : deployFiles w 0 code.files [] none with
        | error e => constructor <;> simp [bodySt, logEv, hv, hd] <;> tauto
        | ok fs =>
            obtain ⟨files, sha⟩ := fs
            cases hpr : create_pull_request bname ("[agent] " ++ code.commitMessage) ""
                (t.trustLevel = "full_auto") w.prCreate w.mergeOutcome with
            | error e => constructor <;> simp [bodySt, logEv, hv, hd, hpr] <;> tauto
            | ok pr => constructor <;> simp [bodySt, logEv, hv, hd, hpr] <;> tauto

/-- When the body reduces to the post-approval tail, the final state of
process_task keeps the review notes and every ledger event present at
approval time, on the normal path and on the exceptional path alike. -/
theorem process_task_after_preserves (w : World) (cfg : Config) (t : Task)
    (bname : String) (code : CodeOutput) (st2 : St)
    (hbody : process_task_body w cfg t = afterApproval w t bname code st2) :
    (process_task w cfg t).2.task.reviewNotes = st2.task.reviewNotes ∧
    (∀ ev, ev ∈ st2.events → ev ∈ (process_task w cfg t).2.events) := by
  have hpres := afterApproval_preserves w t bname code st2
  unfold process_task
  rw [hbody]
  cases hA : afterApproval w t bname code st2 with
  | ok r =>
      obtain ⟨b, stF⟩ := r
      rw [hA] at hpres
      simpa [bodySt] using hpres
  | error es =>
      obtain ⟨e, stE⟩ := es
      rw [hA] at hpres
      simp only [bodySt] at hpres
      constructor
      · simp [logEv, setFailed, hpres.1]
      · intro ev hev
        simp [logEv, setFailed]
        exact Or.inl (hpres.2 ev hev)

/-- With a viable plan, a clean branch, an open budget gate and the
first review approving, the body reduces to the post-approval tail; the
state at that point has the reviewer decision recorded, the approved
ledger event appended, and review_attempts 1. -/
theorem process_task_body_approved_first (w : World) (cfg : Config) (t : Task)
    (p : Plan) (c : Option CodeOutput) (r : Option Review)
    (hmax : 1 ≤ cfg.maxReviewCycles)
    (hp : w.plannerResp = Except.ok (some p))
    (hcx : ¬(p.complexity = "unknown" ∨ p.steps = []))
    (hu : w.branchOutcome = Except.ok ())
    (hb : w.budgetOkAt 1 = true)
    (hc : w.coderRespAt 1 = Except.ok c)
    (hr : w.reviewRespAt 1 = Except.ok r)
    (hdec : (reviewFromResponse r).decision = "approve") :
    ∃ st2, process_task_body w cfg t =
        afterApproval w t (branchNameFor t) (codeFromResponse c) st2 ∧
      Event.mk "devils_advocate" "approved" "" (reviewFromResponse r).summary ∈ st2.events ∧
      st2.task.reviewNotes = some (reviewFromResponse r) ∧
      st2.task.reviewAttempts = 1 := by
  obtain ⟨k, hk⟩ : ∃ k, cfg.maxReviewCycles = k + 1 := ⟨cfg.maxReviewCycles - 1, by omega⟩
  unfold process_task_body loopPhase
  rw [hp, hu]
  simp only [planFromResponse, Option.getD_some, create_branch]
  rw [if_neg hcx, hk]
  unfold reviewLoop
  rw [hb]
  simp only [Bool.true_eq_false, if_false, hc, hr, hdec, if_pos, if_true]
  refine ⟨_, rfl, ?_, ?_, ?_⟩
  · simp [logEv, hdec]
  · simp [logEv]
  · simp [logEv]

/-- When the tester does not fail, delivery succeeds, the PR is created,
trust is full_auto and the squash merge raises, the tail still finishes
with success and status done, and the recorded pr info carries
merged=false with the merge error text. -/
theorem afterApproval_done_merge_failed (w : World) (t : Task) (bname : String)
    (code : CodeOutput) (st : St) (tr : Option TestResult)
    (files : List String) (sha : Option String) (pc : PrCreated) (me : GithubErr)
    (htr : w.testerResp = Except.ok tr)
    (hv : (testFromResponse tr).verdict ≠ "fail")
    (hd : deployFiles w 0 code.files [] none = Except.ok (files, sha))
    (hpc : w.prCreate = Except.ok pc)
    (htrust : t.trustLevel = "full_auto")
    (hm : w.mergeOutcome = Except.error me) :
    ∃ stF, afterApproval w t bname code st = Except.ok (true, stF) ∧
      stF.task.status = Status.done ∧
      stF.prInfo = some (PrResult.mk pc.number pc.url
        ("[agent] " ++ code.commitMessage) (some false) (some me.text)) := by
  unfold afterApproval
  rw [htr]
  simp only [ne_eq, hv, not_false_eq_true, ite_true, ite_false, hd]
  unfold create_pull_request
  rw [hpc, htrust, hm]
  simp only [eq_self_iff_true, decide_True, ite_true]
  refine ⟨_, rfl, ?_, ?_⟩ <;> simp [logEv]

/-- C3: a phase response that does not parse never raises: the planner
wrapper yields the empty unactionable default that the controller early
exit then catches with the planner completed event naming the parse
failure, and the review wrapper yields approve at confidence 1/2 with
the approved event naming the parse failure, recorded in the final
state whatever the rest of the run does. -/
theorem c3_parse_failure_safe_defaults :
    (∀ (w : World) (cfg : Config) (t : Task), w.plannerResp = Except.ok none →
      (∃ st, process_task_body w cfg t = Except.ok (false, st)) ∧
      (process_task w cfg t).1 = false ∧
      (process_task w cfg t).2.task.status = Status.failed ∧
      (process_task w cfg t).2.coderInvocations = 0 ∧
      (process_task w cfg t).2.task.plan = some failedPlanDefault ∧
      Event.mk "planner" "completed" "" "Failed to parse plan" ∈
        (process_task w cfg t).2.events) ∧
    (failedReviewDefault.decision = "approve" ∧ failedReviewDefault.confidence = 1/2) ∧
    (∀ (w : World) (cfg : Config) (t : Task) (p : Plan) (c : Option CodeOutput),
      1 ≤ cfg.maxReviewCycles →
      w.plannerResp = Except.ok (some p) →
      ¬(p.complexity = "unknown" ∨ p.steps = []) →
      w.branchOutcome = Except.ok () →
      w.budgetOkAt 1 = true →
      w.coderRespAt 1 = Except.ok c →
      w.reviewRespAt 1 = Except.ok none →
      (process_task w cfg t).2.task.reviewNotes = some failedReviewDefault ∧
      Event.mk "devils_advocate" "approved" ""
          "Failed to parse review — approving with low confidence" ∈
        (process_task w cfg t).2.events) := by
  refine ⟨?_, ⟨rfl, rfl⟩, ?_⟩
  · intro w cfg t hp
    unfold process_task process_task_body
    rw [hp]
    have hcond : failedPlanDefault.complexity = "unknown" ∨ failedPlanDefault.steps = [] :=
      Or.inl rfl
    simp only [planFromResponse, Option.getD_none]
    rw [if_pos hcond]
    refine ⟨⟨_, rfl⟩, rfl, ?_, ?_, ?_, ?_⟩ <;> simp [setFailed, logEv, failedPlanDefault]
  · intro w cfg t p c hmax hp hcx hu hb hc hr
    obtain ⟨st2, hbody, hev, hnotes, _⟩ :=
      process_task_body_approved_first w cfg t p c none hmax hp hcx hu hb hc hr rfl
    obtain ⟨hkeep, hmono⟩ :=
      process_task_after_preserves w cfg t (branchNameFor t) (codeFromResponse c) st2 hbody
    refine ⟨?_, ?_⟩
    · rw [hkeep, hnotes]; rfl
    · exact hmono _ hev

/-- C3 witness: a run with an unparseable planner response, and a run
with an unparseable review response on an otherwise clean first
attempt. -/
theorem c3_witness :
    ((∃ st, process_task_body { wAllReject with plannerResp := Except.ok none } demoCfg
        demoTask = Except.ok (false, st)) ∧
      (process_task { wAllReject with plannerResp := Except.ok none } demoCfg demoTask).1 =
        false ∧
      (process_task { wAllReject with plannerResp := Except.ok none } demoCfg
          demoTask).2.task.status = Status.failed ∧
      (process_task { wAllReject with plannerResp := Except.ok none } demoCfg
          demoTask).2.coderInvocations = 0 ∧
      (process_task { wAllReject with plannerResp := Except.ok none } demoCfg
          demoTask).2.task.plan = some failedPlanDefault ∧
      Event.mk "planner" "completed" "" "Failed to parse plan" ∈
        (process_task { wAllReject with plannerResp := Except.ok none } demoCfg
          demoTask).2.events) ∧
    ((process_task { wAllReject with reviewRespAt := fun _ => Except.ok none } demoCfg
        demoTask).2.task.reviewNotes = some failedReviewDefault ∧
      Event.mk "devils_advocate" "approved" ""
          "Failed to parse review — approving with low confidence" ∈
        (process_task { wAllReject with reviewRespAt := fun _ => Except.ok none } demoCfg
          demoTask).2.events) :=
  ⟨c3_parse_failure_safe_defaults.1 _ demoCfg demoTask rfl,
    c3_parse_failure_safe_defaults.2.2 _ demoCfg demoTask goodPlan (some demoCode)
      (by decide) rfl (by decide) rfl rfl rfl rfl⟩

/-- C8: with trust full_auto, when the automatic squash merge of the
created pull request fails, the pipeline still completes delivery: the
run succeeds, the task reaches status done, and the recorded pr info
carries merged=false together with the merge error text. -/
theorem c8_merge_failure_nonfatal (w : World) (cfg : Config) (t : Task)
    (p : Plan) (c : Option CodeOutput) (r : Option Review) (tr : Option TestResult)
    (files : List String) (sha : Option String) (pc : PrCreated) (me : GithubErr)
    (hmax : 1 ≤ cfg.maxReviewCycles)
    (htrust : t.trustLevel = "full_auto")
    (hp : w.plannerResp = Except.ok (some p))
    (hcx : ¬(p.complexity = "unknown" ∨ p.steps = []))
    (hu : w.branchOutcome = Except.ok ())
    (hb : w.budgetOkAt 1 = true)
    (hc : w.coderRespAt 1 = Except.ok c)
    (hr : w.reviewRespAt 1 = Except.ok r)
    (hdec : (reviewFromResponse r).decision = "approve")
    (htr : w.testerResp = Except.ok tr)
    (hv : (testFromResponse tr).verdict ≠ "fail")
    (hd : deployFiles w 0 (codeFromResponse c).files [] none = Except.ok (files, sha))
    (hpc : w.prCreate = Except.ok pc)
    (hm : w.mergeOutcome = Except.error me) :
    (process_task w cfg t).1 = true ∧
    (process_task w cfg t).2.task.status = Status.done ∧
    (process_task w cfg t).2.prInfo = some (PrResult.mk pc.number pc.url
      ("[agent] " ++ (codeFromResponse c).commitMessage) (some false) (some me.text)) := by
  obtain ⟨st2, hbody, _, _, _⟩ :=
    process_task_body_approved_first w cfg t p c r hmax hp hcx hu hb hc hr hdec
  obtain ⟨stF, hA, hdone, hpr⟩ :=
    afterApproval_done_merge_failed w t (branchNameFor t) (codeFromResponse c) st2 tr
      files sha pc me htr hv hd hpc htrust hm
  unfold process_task
  rw [hbody, hA]
  exact ⟨rfl, hdone, hpr⟩

/-- A world in which the first review approves and the automatic merge
fails with a 405. -/
def wMergeFails : World :=
  { wAllReject with
    reviewRespAt := fun _ => Except.ok (some approveReview),
    mergeOutcome := Except.error { status := 405, text := "not mergeable" } }

/-- C8 witness: the merge-failure world run on the full_auto demo task. -/
theorem c8_witness :
    (process_task wMergeFails demoCfg demoTask).1 = true ∧
    (process_task wMergeFails demoCfg demoTask).2.task.status = Status.done ∧
    (process_task wMergeFails demoCfg demoTask).2.prInfo = some (PrResult.mk 1 "http"
      ("[agent] " ++ (codeFromResponse (some demoCode)).commitMessage)
      (some false) (some "not mergeable")) :=
  c8_merge_failure_nonfatal wMergeFails demoCfg demoTask goodPlan (some demoCode)
    (some approveReview) (some { verdict := "pass" }) [] none
    { number := 1, url := "http" } { status := 405, text := "not mergeable" }
    (by decide) rfl rfl (by decide) rfl rfl rfl rfl (by decide) rfl (by decide) rfl rfl rfl

/-- C9 counterexample input: a store with one queued task and a world
whose planner response does not parse, so the task is processed but
ends failed. -/
def wProcessedButFailed : RunOnceWorld :=
  { spentToday := 0, store := [demoTask],
    pt := { wAllReject with plannerResp := Except.ok none } }

/-- C9 counterexample: a task is available and is processed (dequeue
returns it and the pipeline runs it to failed), yet run_once returns
false, so the poll loop sleeps instead of looping again immediately.
The claim that a processed-but-failed task skips the sleep is false on
the code. -/
theorem c9_counterexample :
    (get_next_task wProcessedButFailed.store).1 = some demoTask ∧
    (process_task wProcessedButFailed.pt demoCfg demoTask).2.task.status = Status.failed ∧
    run_once wProcessedButFailed demoCfg = false ∧
    pollIterationSleeps wProcessedButFailed demoCfg = true := by
  refine ⟨by decide, ?_, by decide, by decide⟩
  have h := (c3_parse_failure_safe_defaults.1 wProcessedButFailed.pt demoCfg demoTask rfl).2.2.1
  exact h

/-- C9 amended: the poll loop skips the sleep exactly when run_once
returned true, i.e. when the budget gate was open, a task was dequeued
and process_task succeeded; when no task was available, the budget was
exhausted, or the processed task failed, the loop sleeps the configured
interval. -/
theorem c9_amended_sleep_unless_success (rw : RunOnceWorld) (cfg : Config) :
    pollIterationSleeps rw cfg = false ↔
      (rw.spentToday < cfg.dailyBudgetCents ∧
        ∃ t, (get_next_task rw.store).1 = some t ∧ (process_task rw.pt cfg t).1 = true) := by
  unfold pollIterationSleeps run_once
  by_cases hbud : cfg.dailyBudgetCents ≤ rw.spentToday
  · simp [hbud]
  · have hlt : rw.spentToday < cfg.dailyBudgetCents := by omega
    simp only [hbud, if_false]
    cases hq : (get_next_task rw.store).1 with
    | none => simp [hq, hlt]
    | some t0 => simp [hq, hlt]

/-! ### Concurrent dequeue (claim C1)

get_next_task runs SELECT ... FOR UPDATE SKIP LOCKED and then, in the
same transaction, UPDATE status=planning followed by COMMIT.  The
interleaving model gives each caller two atomic micro steps: the select
acquires the row lock on the chosen row (skipping rows locked by other
in-flight transactions, exactly the SKIP LOCKED semantics), and the
commit publishes the status update and releases the lock.  A scheduler
word over caller indices drives the interleaving. -/

/-- The transaction state of one dequeue caller: not yet started, row
selected and locked but not committed, or finished with the claimed
task id (none when the select found no row). -/
inductive CallerPhase where
  | start
  | locked (t : Task)
  | done (res : Option Nat)
deriving DecidableEq, Repr

/-- The row id a caller currently holds a lock on. -/
def lockIdOf (c : CallerPhase) : Option Nat :=
  match c with
  | .locked t => some t.id
  | _ => none

/-- The task id a caller has successfully claimed. -/
def claimOf (c : CallerPhase) : Option Nat :=
  match c with
  | .done (some x) => some x
  | _ => none

/-- Shared store plus the per-caller transaction states. -/
structure SysState (n : Nat) where
  store : Store
  callers : Fin n → CallerPhase

/-- Whether some in-flight transaction holds the lock on row id x. -/
def isLockedB {n : Nat} (σ : SysState n) (x : Nat) : Bool :=
  decide (∃ i, lockIdOf (σ.callers i) = some x)

/-- One atomic micro step of caller i of get_next_task: from start, run
the SELECT (the dequeue order over queued rows whose lock is not held,
per SKIP LOCKED) and either lock the row or finish empty; from locked,
run the UPDATE to planning and COMMIT, finishing with the claimed id.
A finished caller does nothing. -/
def dequeueStep {n : Nat} (σ : SysState n) (i : Fin n) : SysState n :=
  match σ.callers i with
  | .start =>
      match selectMin (σ.store.filter
          (fun t => decide (t.status = Status.queued) && !(isLockedB σ t.id))) with
      | some t => { σ with callers := Function.update σ.callers i (.locked t) }
      | none => { σ with callers := Function.update σ.callers i (.done none) }
  | .locked t =>
      { store := σ.store.map
          (fun u => if u.id = t.id then { u with status := Status.planning } else u),
        callers := Function.update σ.callers i (.done (some t.id)) }
  | .done _ => σ

/-- Run a schedule of caller micro steps. -/
def runSched {n : Nat} (σ : SysState n) (sched : List (Fin n)) : SysState n :=
  sched.foldl dequeueStep σ

/-- All callers fresh against the given store. -/
def initState (store : Store) (n : Nat) : SysState n :=
  { store := store, callers := fun _ => CallerPhase.start }

/-- Ids of the queued rows of a store. -/
def queuedIds (store : Store) : List Nat :=
  (store.filter (fun t => decide (t.status = Status.queued))).map Task.id

/-- The set of callers whose dequeue succeeded. -/
def successSet {n : Nat} (σ : SysState n) : Finset (Fin n) :=
  Finset.univ.filter (fun i => (claimOf (σ.callers i)).isSome)

/-- Invariant of the interleaved dequeue transactions, relative to the
id list queued0 of the initially queued rows: locks are held by at most
one caller and only on rows still queued; claims are unique, were
initially queued, and their rows are already planning; rows that are
still queued were initially queued; an initially queued id nobody
claimed or locked is still queued; and once some caller has finished
empty, every initially queued id is claimed or locked. -/
structure DqInv (queued0 : List Nat) {n : Nat} (σ : SysState n) : Prop where
  lockInj : ∀ i j x, lockIdOf (σ.callers i) = some x → lockIdOf (σ.callers j) = some x → i = j
  lockQueued : ∀ i t, σ.callers i = CallerPhase.locked t →
    ∃ u ∈ σ.store, u.id = t.id ∧ u.status = Status.queued
  lockNotClaimed : ∀ i j x, lockIdOf (σ.callers i) = some x →
    claimOf (σ.callers j) ≠ some x
  claimInj : ∀ i j x, claimOf (σ.callers i) = some x → claimOf (σ.callers j) = some x → i = j
  claimSubQ : ∀ i x, claimOf (σ.callers i) = some x → x ∈ queued0
  claimPlanning : ∀ i x, claimOf (σ.callers i) = some x →
    ∀ u ∈ σ.store, u.id = x → u.status = Status.planning
  queuedSubQ : ∀ u ∈ σ.store, u.status = Status.queued → u.id ∈ queued0
  unclaimedQueued : ∀ x ∈ queued0, (∀ i, claimOf (σ.callers i) ≠ some x) →
    (∀ i, lockIdOf (σ.callers i) ≠ some x) →
    ∃ u ∈ σ.store, u.id = x ∧ u.status = Status.queued
  noneFull : (∃ i, σ.callers i = CallerPhase.done none) → ∀ x ∈ queued0,
    (∃ i, claimOf (σ.callers i) = some x) ∨ (∃ i, lockIdOf (σ.callers i) = some x)

/-- The invariant holds initially. -/
theorem dqInv_init (store : Store) (n : Nat) :
    DqInv (queuedIds store) (initState store n) := by
  refine ⟨?_, ?_, ?_, ?_, ?_, ?_, ?_, ?_, ?_⟩
  · intro i j x hx; simp [initState, lockIdOf] at hx
  · intro i t ht; simp [initState] at ht
  · intro i j x hx; simp [initState, lockIdOf] at hx
  · intro i j x hx; simp [initState, claimOf] at hx
  · intro i x hx; simp [initState, claimOf] at hx
  · intro i x hx; simp [initState, claimOf] at hx
  · intro u hu hq
    exact List.mem_map.mpr ⟨u, List.mem_filter.mpr ⟨hu, by simp [hq]⟩, rfl⟩
  · intro x hx _ _
    obtain ⟨u, hu, rfl⟩ := List.mem_map.mp hx
    exact ⟨u, (List.mem_filter.mp hu).1, rfl, by
      have := (List.mem_filter.mp hu).2; simpa using this⟩
  · intro h; obtain ⟨i, hi⟩ := h; simp [initState] at hi

theorem claimOf_start : claimOf CallerPhase.start = none := rfl

theorem claimOf_locked (t : Task) : claimOf (CallerPhase.locked t) = none := rfl

theorem lockIdOf_start : lockIdOf CallerPhase.start = none := rfl

theorem lockIdOf_locked (t : Task) : lockIdOf (CallerPhase.locked t) = some t.id := rfl

theorem lockIdOf_done (r : Option Nat) : lockIdOf (CallerPhase.done r) = none := rfl

/-- Preservation of the invariant when caller i selects and locks row t. -/
theorem dqInv_select_some (queued0 : List Nat) {n : Nat} (σ : SysState n) (i : Fin n)
    (t : Task) (hci : σ.callers i = CallerPhase.start)
    (hsel : selectMin (σ.store.filter
      (fun u => decide (u.status = Status.queued) && !(isLockedB σ u.id))) = some t)
    (h : DqInv queued0 σ) :
    DqInv queued0 { σ with callers := Function.update σ.callers i (CallerPhase.locked t) } := by
  have htf := selectMin_mem hsel
  have htS : t ∈ σ.store := (List.mem_filter.mp htf).1
  have hcond := (List.mem_filter.mp htf).2
  have htq : t.status = Status.queued := by
    have := hcond
    simp only [Bool.and_eq_true, decide_eq_true_eq] at this
    exact this.1
  have htunlocked : ∀ j, lockIdOf (σ.callers j) ≠ some t.id := by
    have := hcond
    simp only [Bool.and_eq_true, Bool.not_eq_true', isLockedB, decide_eq_false_iff_not] at this
    exact fun j hj => this.2 ⟨j, hj⟩
  have hclaim : ∀ j, claimOf (Function.update σ.callers i (CallerPhase.locked t) j) =
      claimOf (σ.callers j) := by
    intro j
    by_cases hj : j = i
    · subst hj; rw [Function.update_same, hci]; rfl
    · rw [Function.update_noteq hj]
  have hlock : ∀ j, j ≠ i → lockIdOf (Function.update σ.callers i (CallerPhase.locked t) j) =
      lockIdOf (σ.callers j) := fun j hj => by rw [Function.update_noteq hj]
  have htid_unclaimed : ∀ j, claimOf (σ.callers j) ≠ some t.id := by
    intro j hj
    have := h.claimPlanning j t.id hj t htS rfl
    rw [htq] at this
    exact Status.noConfusion this
  constructor <;> dsimp only
  · intro j k x hj hk
    by_cases hji : j = i <;> by_cases hki : k = i
    · rw [hji, hki]
    · subst hji
      rw [Function.update_same] at hj
      rw [hlock k hki] at hk
      simp only [lockIdOf_locked, Option.some.injEq] at hj
      exact absurd (hj ▸ hk) (htunlocked k)
    · subst hki
      rw [Function.update_same] at hk
      rw [hlock j hji] at hj
      simp only [lockIdOf_locked, Option.some.injEq] at hk
      exact absurd (hk ▸ hj) (htunlocked j)
    · rw [hlock j hji] at hj
      rw [hlock k hki] at hk
      exact h.lockInj j k x hj hk
  · intro j t' hj
    by_cases hji : j = i
    · subst hji
      rw [Function.update_same] at hj
      obtain rfl := (CallerPhase.locked.injEq _ _).mp hj
      exact ⟨t, htS, rfl, htq⟩
    · rw [Function.update_noteq hji] at hj
      exact h.lockQueued j t' hj
  · intro j k x hj
    rw [hclaim k]
    by_cases hji : j = i
    · subst hji
      rw [Function.update_same] at hj
      simp only [lockIdOf_locked, Option.some.injEq] at hj
      exact hj ▸ htid_unclaimed k
    · rw [hlock j hji] at hj
      exact h.lockNotClaimed j k x hj
  · intro j k x hj hk
    rw [hclaim j] at hj
    rw [hclaim k] at hk
    exact h.claimInj j k x hj hk
  · intro j x hj
    rw [hclaim j] at hj
    exact h.claimSubQ j x hj
  · intro j x hj
    rw [hclaim j] at hj
    exact h.claimPlanning j x hj
  · exact h.queuedSubQ
  · intro x hx hnc hnl
    refine h.unclaimedQueued x hx (fun j => by rw [← hclaim j]; exact hnc j) ?_
    intro j
    by_cases hji : j = i
    · subst hji; rw [hci]; simp [lockIdOf_start]
    · rw [← hlock j hji]; exact hnl j
  · intro hex x hx
    obtain ⟨j, hj⟩ := hex
    have hji : j ≠ i := by
      intro hcon
      subst hcon
      rw [Function.update_same] at hj
      exact CallerPhase.noConfusion hj
    rw [Function.update_noteq hji] at hj
    rcases h.noneFull ⟨j, hj⟩ x hx with ⟨k, hk⟩ | ⟨k, hk⟩
    · exact Or.inl ⟨k, by rw [hclaim k]; exact hk⟩
    · right
      refine ⟨k, ?_⟩
      have hki : k ≠ i := by
        intro hcon
        subst hcon
        rw [hci] at hk
        exact Option.noConfusion hk
      rw [hlock k hki]
      exact hk

/-- Preservation of the invariant when caller i finds no selectable row
and finishes empty. -/
theorem dqInv_select_none (queued0 : List Nat) {n : Nat} (σ : SysState n) (i : Fin n)
    (hci : σ.callers i = CallerPhase.start)
    (hsel : selectMin (σ.store.filter
      (fun u => decide (u.status = Status.queued) && !(isLockedB σ u.id))) = none)
    (h : DqInv queued0 σ) :
    DqInv queued0 { σ with callers := Function.update σ.callers i (CallerPhase.done none) } := by
  have hclaim : ∀ j, claimOf (Function.update σ.callers i (CallerPhase.done none) j) =
      claimOf (σ.callers j) := by
    intro j
    by_cases hj : j = i
    · subst hj; rw [Function.update_same, hci]; rfl
    · rw [Function.update_noteq hj]
  have hlock : ∀ j, lockIdOf (Function.update σ.callers i (CallerPhase.done none) j) =
      lockIdOf (σ.callers j) := by
    intro j
    by_cases hj : j = i
    · subst hj; rw [Function.update_same, hci]; rfl
    · rw [Function.update_noteq hj]
  constructor <;> dsimp only
  · intro j k x hj hk
    rw [hlock j] at hj; rw [hlock k] at hk
    exact h.lockInj j k x hj hk
  · intro j t' hj
    by_cases hji : j = i
    · subst hji
      rw [Function.update_same] at hj
      exact CallerPhase.noConfusion hj
    · rw [Function.update_noteq hji] at hj
      exact h.lockQueued j t' hj
  · intro j k x hj
    rw [hlock j] at hj
    rw [hclaim k]
    exact h.lockNotClaimed j k x hj
  · intro j k x hj hk
    rw [hclaim j] at hj; rw [hclaim k] at hk
    exact h.claimInj j k x hj hk
  · intro j x hj
    rw [hclaim j] at hj
    exact h.claimSubQ j x hj
  · intro j x hj
    rw [hclaim j] at hj
    exact h.claimPlanning j x hj
  · exact h.queuedSubQ
  · intro x hx hnc hnl
    exact h.unclaimedQueued x hx (fun j => by rw [← hclaim j]; exact hnc j)
      (fun j => by rw [← hlock j]; exact hnl j)
  · intro _ x hx
    by_contra hcon
    push_neg at hcon
    obtain ⟨hnc, hnl⟩ := hcon
    obtain ⟨u, huS, huid, huq⟩ := h.unclaimedQueued x hx
      (fun j => by rw [← hclaim j]; exact hnc j)
      (fun j => by rw [← hlock j]; exact hnl j)
    have hufilter : u ∈ σ.store.filter
        (fun v => decide (v.status = Status.queued) && !(isLockedB σ v.id)) := by
      refine List.mem_filter.mpr ⟨huS, ?_⟩
      have hul : isLockedB σ u.id = false := by
        simp only [isLockedB, decide_eq_false_iff_not]
        intro ⟨j, hj⟩
        rw [huid] at hj
        exact hnl j (by rw [hlock j]; exact hj)
      simp [huq, hul]
    have := selectMin_isSome_of_ne_nil (List.ne_nil_of_mem hufilter)
    rw [hsel] at this
    exact Bool.noConfusion this


/-- Preservation of the invariant when caller i commits its locked row:
the row becomes planning and the lock is released with the claim
recorded. -/
theorem dqInv_commit (queued0 : List Nat) {n : Nat} (σ : SysState n) (i : Fin n)
    (t : Task) (hci : σ.callers i = CallerPhase.locked t)
    (h : DqInv queued0 σ) :
    DqInv queued0
      { store := σ.store.map
          (fun u => if u.id = t.id then { u with status := Status.planning } else u),
        callers := Function.update σ.callers i (CallerPhase.done (some t.id)) } := by
  have hlocki : lockIdOf (σ.callers i) = some t.id := by rw [hci]; rfl
  have hclaimi : claimOf (σ.callers i) = none := by rw [hci]; rfl
  have hclaim : ∀ j, j ≠ i → claimOf (Function.update σ.callers i
      (CallerPhase.done (some t.id)) j) = claimOf (σ.callers j) :=
    fun j hj => by rw [Function.update_noteq hj]
  have hclaimAtI : claimOf (Function.update σ.callers i
      (CallerPhase.done (some t.id)) i) = some t.id := by
    rw [Function.update_same]; rfl
  have hlock : ∀ j, j ≠ i → lockIdOf (Function.update σ.callers i
      (CallerPhase.done (some t.id)) j) = lockIdOf (σ.callers j) :=
    fun j hj => by rw [Function.update_noteq hj]
  have hlockAtI : lockIdOf (Function.update σ.callers i
      (CallerPhase.done (some t.id)) i) = none := by
    rw [Function.update_same]; rfl
  have htid_unclaimed : ∀ k, claimOf (σ.callers k) ≠ some t.id :=
    fun k => h.lockNotClaimed i k t.id hlocki
  constructor <;> dsimp only
  · intro j k x hj hk
    have hji : j ≠ i := fun hcon => by
      rw [hcon, hlockAtI] at hj
      exact Option.noConfusion hj
    have hki : k ≠ i := fun hcon => by
      rw [hcon, hlockAtI] at hk
      exact Option.noConfusion hk
    rw [hlock j hji] at hj; rw [hlock k hki] at hk
    exact h.lockInj j k x hj hk
  · intro j t' hj
    have hji : j ≠ i := fun hcon => by
      rw [hcon, Function.update_same] at hj
      exact CallerPhase.noConfusion hj
    rw [Function.update_noteq hji] at hj
    obtain ⟨u, huS, huid, huq⟩ := h.lockQueued j t' hj
    have htne : t'.id ≠ t.id := fun hcon =>
      hji (h.lockInj j i t.id (by rw [hj, lockIdOf_locked, hcon]) hlocki)
    refine ⟨u, List.mem_map.mpr ⟨u, huS, ?_⟩, huid, huq⟩
    have hune : u.id ≠ t.id := by rw [huid]; exact htne
    simp [hune]
  · intro j k x hj
    have hji : j ≠ i := fun hcon => by
      rw [hcon, hlockAtI] at hj
      exact Option.noConfusion hj
    rw [hlock j hji] at hj
    have hxne : x ≠ t.id := fun hcon =>
      hji (h.lockInj j i t.id (by rw [← hcon]; exact hj) hlocki)
    by_cases hki : k = i
    · rw [hki, hclaimAtI]
      intro hcon
      exact hxne (Option.some.inj hcon).symm
    · rw [hclaim k hki]
      exact h.lockNotClaimed j k x hj
  · intro j k x hj hk
    by_cases hji : j = i <;> by_cases hki : k = i
    · rw [hji, hki]
    · rw [hji, hclaimAtI] at hj
      rw [hclaim k hki] at hk
      rw [← Option.some.inj hj] at hk
      exact absurd hk (htid_unclaimed k)
    · rw [hki, hclaimAtI] at hk
      rw [hclaim j hji] at hj
      rw [← Option.some.inj hk] at hj
      exact absurd hj (htid_unclaimed j)
    · rw [hclaim j hji] at hj; rw [hclaim k hki] at hk
      exact h.claimInj j k x hj hk
  · intro j x hj
    by_cases hji : j = i
    · rw [hji, hclaimAtI] at hj
      rw [← Option.some.inj hj]
      obtain ⟨u, huS, huid, huq⟩ := h.lockQueued i t hci
      have := h.queuedSubQ u huS huq
      rwa [huid] at this
    · rw [hclaim j hji] at hj
      exact h.claimSubQ j x hj
  · intro j x hj u' hu' huid'
    obtain ⟨u, huS, hgu⟩ := List.mem_map.mp hu'
    by_cases hut : u.id = t.id
    · have hplan : u' = { u with status := Status.planning } := by
        rw [← hgu]; simp [hut]
      rw [hplan]
    · have hguu : u' = u := by rw [← hgu]; simp [hut]
      by_cases hji : j = i
      · rw [hji, hclaimAtI] at hj
        have hx : t.id = x := Option.some.inj hj
        rw [hguu] at huid'
        exact absurd (huid'.trans hx.symm) hut
      · rw [hclaim j hji] at hj
        rw [hguu] at huid' ⊢
        exact h.claimPlanning j x hj u huS huid'
  · intro u' hu' hq'
    obtain ⟨u, huS, hgu⟩ := List.mem_map.mp hu'
    by_cases hut : u.id = t.id
    · rw [← hgu] at hq'
      simp [hut] at hq'
    · have hguu : u' = u := by rw [← hgu]; simp [hut]
      rw [hguu] at hq' ⊢
      exact h.queuedSubQ u huS hq'
  · intro x hx hnc hnl
    have hxt : x ≠ t.id := fun hcon => by
      have := hnc i
      rw [hclaimAtI, hcon] at this
      exact this rfl
    obtain ⟨u, huS, huid, huq⟩ := h.unclaimedQueued x hx
      (fun j => by
        by_cases hji : j = i
        · rw [hji, hclaimi]; exact Option.noConfusion
        · rw [← hclaim j hji]; exact hnc j)
      (fun j => by
        by_cases hji : j = i
        · rw [hji, hlocki]
          intro hcon
          exact hxt (Option.some.inj hcon).symm
        · rw [← hlock j hji]; exact hnl j)
    refine ⟨u, List.mem_map.mpr ⟨u, huS, ?_⟩, huid, huq⟩
    have hune : u.id ≠ t.id := by rw [huid]; exact hxt
    simp [hune]
  · intro hex x hx
    obtain ⟨j, hj⟩ := hex
    have hji : j ≠ i := fun hcon => by
      rw [hcon, Function.update_same] at hj
      simp at hj
    rw [Function.update_noteq hji] at hj
    rcases h.noneFull ⟨j, hj⟩ x hx with ⟨k, hk⟩ | ⟨k, hk⟩
    · have hki : k ≠ i := fun hcon => by
        rw [hcon, hclaimi] at hk
        exact Option.noConfusion hk
      exact Or.inl ⟨k, by rw [hclaim k hki]; exact hk⟩
    · by_cases hki : k = i
      · rw [hki, hlocki] at hk
        refine Or.inl ⟨i, ?_⟩
        rw [hclaimAtI]
        exact hk
      · exact Or.inr ⟨k, by rw [hlock k hki]; exact hk⟩

/-- One micro step preserves the invariant. -/
theorem dqInv_step (queued0 : List Nat) {n : Nat} (σ : SysState n) (i : Fin n)
    (h : DqInv queued0 σ) : DqInv queued0 (dequeueStep σ i) := by
  unfold dequeueStep
  cases hci : σ.callers i with
  | start =>
      cases hsel : selectMin (σ.store.filter
          (fun u => decide (u.status = Status.queued) && !(isLockedB σ u.id))) with
      | some t => exact dqInv_select_some queued0 σ i t hci hsel h
      | none => exact dqInv_select_none queued0 σ i hci hsel h
  | locked t => exact dqInv_commit queued0 σ i t hci h
  | done r => exact h

/-- Any schedule preserves the invariant. -/
theorem dqInv_run (queued0 : List Nat) {n : Nat} (σ : SysState n)
    (sched : List (Fin n)) (h : DqInv queued0 σ) :
    DqInv queued0 (runSched σ sched) := by
  induction sched generalizing σ with
  | nil => exact h
  | cons i rest ih => exact ih (dequeueStep σ i) (dqInv_step queued0 σ i h)

/-- The queued ids of a store with unique row ids are unique. -/
theorem queuedIds_nodup (store : Store) (h : (store.map Task.id).Nodup) :
    (queuedIds store).Nodup := by
  unfold queuedIds
  exact h.sublist (List.Sublist.map Task.id (List.filter_sublist store))

/-- C1: against a store of rows with unique ids holding N queued tasks,
for every interleaving of concurrent get_next_task transactions that
runs all callers to completion, no task id is claimed by two different
callers, every claimed id was a queued task, and the number of
successful dequeues is exactly min(number of callers, N). -/
theorem c1_concurrent_dequeue_exactly_once (store : Store) (n : Nat)
    (sched : List (Fin n))
    (hids : (store.map Task.id).Nodup)
    (hdone : ∀ i, ∃ r, (runSched (initState store n) sched).callers i = CallerPhase.done r) :
    (∀ i j x, claimOf ((runSched (initState store n) sched).callers i) = some x →
      claimOf ((runSched (initState store n) sched).callers j) = some x → i = j) ∧
    (∀ i x, claimOf ((runSched (initState store n) sched).callers i) = some x →
      x ∈ queuedIds store) ∧
    (successSet (runSched (initState store n) sched)).card =
      min n (queuedIds store).length := by
  have hQN := queuedIds_nodup store hids
  set σf := runSched (initState store n) sched with hσf
  have hInv : DqInv (queuedIds store) σf :=
    dqInv_run (queuedIds store) (initState store n) sched (dqInv_init store n)
  have hnolock : ∀ i, lockIdOf (σf.callers i) = none := by
    intro i
    obtain ⟨r, hr⟩ := hdone i
    rw [hr]
    rfl
  refine ⟨hInv.claimInj, hInv.claimSubQ, ?_⟩
  have hcardQ : (queuedIds store).toFinset.card = (queuedIds store).length :=
    List.toFinset_card_of_nodup hQN
  have hinj : Set.InjOn (fun i => (claimOf (σf.callers i)).getD 0) (successSet σf) := by
    intro i hi j hj hij
    simp only [successSet, Finset.coe_filter, Set.mem_setOf_eq] at hi hj
    obtain ⟨x, hx⟩ := Option.isSome_iff_exists.mp hi.2
    obtain ⟨y, hy⟩ := Option.isSome_iff_exists.mp hj.2
    simp only [hx, hy, Option.getD_some] at hij
    exact hInv.claimInj i j x hx (by rw [hy, hij])
  have hmaps : ∀ i ∈ successSet σf,
      (claimOf (σf.callers i)).getD 0 ∈ (queuedIds store).toFinset := by
    intro i hi
    simp only [successSet, Finset.mem_filter] at hi
    obtain ⟨x, hx⟩ := Option.isSome_iff_exists.mp hi.2
    rw [hx, Option.getD_some]
    exact List.mem_toFinset.mpr (hInv.claimSubQ i x hx)
  have hle1 : (successSet σf).card ≤ (queuedIds store).length := by
    rw [← hcardQ]
    exact Finset.card_le_card_of_injOn _ hmaps hinj
  have hlen : (successSet σf).card ≤ n := by
    calc (successSet σf).card ≤ Finset.univ.card := Finset.card_filter_le _ _
      _ = n := by simp
  by_cases hnone : ∃ i, σf.callers i = CallerPhase.done none
  · have hsurj : Set.SurjOn (fun i => (claimOf (σf.callers i)).getD 0)
        (successSet σf) (queuedIds store).toFinset := by
      intro x hx
      simp only [Finset.coe_sort_coe, List.coe_toFinset, Set.mem_setOf_eq] at hx
      rcases hInv.noneFull hnone x hx with ⟨k, hk⟩ | ⟨k, hk⟩
      · refine ⟨k, ?_, ?_⟩
        · simp only [successSet, Finset.coe_filter, Set.mem_setOf_eq]
          exact ⟨Finset.mem_univ k, by rw [hk]; rfl⟩
        · dsimp only
          rw [hk, Option.getD_some]
      · rw [hnolock k] at hk
        exact absurd hk (Option.noConfusion)
    have hge : (queuedIds store).length ≤ (successSet σf).card := by
      rw [← hcardQ]
      exact Finset.card_le_card_of_surjOn _ hsurj
    have heq : (successSet σf).card = (queuedIds store).length :=
      le_antisymm hle1 hge
    rw [heq]
    have : (queuedIds store).length ≤ n := heq ▸ hlen
    omega
  · have hall : ∀ i, (claimOf (σf.callers i)).isSome := by
      intro i
      obtain ⟨r, hr⟩ := hdone i
      cases r with
      | none => exact absurd hr (by intro hc; exact hnone ⟨i, hc⟩)
      | some x => rw [hr]; rfl
    have hset : successSet σf = Finset.univ := by
      apply Finset.eq_univ_of_forall
      intro i
      simp only [successSet, Finset.mem_filter]
      exact ⟨Finset.mem_univ i, hall i⟩
    have hcard : (successSet σf).card = n := by rw [hset]; simp
    rw [hcard]
    have : n ≤ (queuedIds store).length := hcard ▸ hle1
    omega

/-- Concrete store for the C1 witness: two queued rows of different
priorities and one row already in progress. -/
def c1Store : Store :=
  [{ id := 1, title := "a", description := "", context := "", trustLevel := "full_auto",
     priority := Priority.medium, createdAt := 0, status := Status.queued },
   { id := 2, title := "b", description := "", context := "", trustLevel := "full_auto",
     priority := Priority.high, createdAt := 5, status := Status.queued },
   { id := 3, title := "c", description := "", context := "", trustLevel := "full_auto",
     priority := Priority.urgent, createdAt := 1, status := Status.planning }]

/-- Concrete interleaving for the C1 witness: three callers select
while overlapping, the third finds every queued row locked, then the
two lock holders commit. -/
def c1Sched : List (Fin 3) := [0, 1, 2, 0, 1]

/-- C1 witness: the three-caller interleaving over two queued tasks
claims each task once and makes exactly min 3 2 successful dequeues. -/
theorem c1_witness :
    (∀ i j x, claimOf ((runSched (initState c1Store 3) c1Sched).callers i) = some x →
      claimOf ((runSched (initState c1Store 3) c1Sched).callers j) = some x → i = j) ∧
    (∀ i x, claimOf ((runSched (initState c1Store 3) c1Sched).callers i) = some x →
      x ∈ queuedIds c1Store) ∧
    (successSet (runSched (initState c1Store 3) c1Sched)).card =
      min 3 (queuedIds c1Store).length :=
  c1_concurrent_dequeue_exactly_once c1Store 3 c1Sched (by decide)
    (by
      intro i
      fin_cases i
      · exact ⟨some 2, by decide⟩
      · exact ⟨some 1, by decide⟩
      · exact ⟨none, by decide⟩)
